import Mathlib

/-!
# Verification development for `util/testutil/repo_helpers.go` and
# `app/internal/ui/parser_for_test.go`

The first part embeds the convergence poller `getCommitWithRefreshAndRetry`:
the worker goroutine is a deterministic loop over the answers of two remote
ports (`Repos.GetCommit`, `MirrorRepos.RefreshVCS`), and the `select` between
the `done` channel and the `time.After(wait)` channel is decided by comparing
the worker's finishing time with the deadline. All durations are in
nanoseconds, as in Go's `time.Duration`.

The second part embeds the fixture helpers `CreateRepo`,
`CreateAndPushRepoFiles`, `PushRepo` and `CloneRepo` as functions of the
answers of the host (file system, commands) and of the server; they return,
next to their Go results, the list of the commands they issued.

The third part embeds `parseMeta` and `walk` of the parser test over the node
tree returned by `html.Parse`.
-/

namespace Sourcegraph

/-! ## Data model of the poller -/

/-- A Go `error` value as far as the poller inspects it: the gRPC status code
that `grpc.Code` reports for it, and its message. -/
structure GoError where
  code : Nat
  msg : String
deriving DecidableEq, Repr

/-- The gRPC code `codes.OK`, which `grpc.Code` reports for a nil error. -/
def codes_OK : Nat := 0

/-- The gRPC code `codes.Unknown`, which `grpc.Code` reports for an error
that carries no gRPC status (such as one built by `fmt.Errorf`). -/
def codes_Unknown : Nat := 2

/-- The gRPC code `codes.NotFound`. -/
def codes_NotFound : Nat := 5

/-- The value of `grpc.Code(err)`; `none` is the nil error. -/
def grpcCode : Option GoError → Nat
  | none => codes_OK
  | some e => e.code

/-- A `*vcs.Commit` as far as the helpers read it. -/
structure Commit where
  ID : String
deriving DecidableEq, Repr

/-- The remote ports as the worker sees them. `GetCommit i` is the pair
`(commit, err)` answered to the `i`-th call of `cl.Repos.GetCommit` (counting
from 0) and `GetCommitDur i` the time that call takes; likewise for
`cl.MirrorRepos.RefreshVCS`, whose answer is only an error (`none` is nil).
`selectTie` is the scheduler's choice when both channels of the `select` are
ready at the same instant (`true` picks `done`). -/
structure Remote where
  GetCommit : Nat → Option Commit × Option GoError
  GetCommitDur : Nat → Nat
  RefreshVCS : Nat → Option GoError
  RefreshVCSDur : Nat → Nat
  selectTie : Bool

/-- The externally visible actions of the worker, in the order it issues them. -/
inductive Event
  | getCommit (i : Nat)
  | refreshVCS (j : Nat)
  | sleep (d : Nat)
deriving DecidableEq, Repr

/-- The state of the worker goroutine. `commit` and `err` are the two variables
captured from the enclosing function (shared with the caller),
`refreshTriggered` is the goroutine's local flag; `reads`, `refreshes`,
`sleeps`, `clock` and `trace` record what the worker has done so far, and
`done` says that the loop was left and `done <- struct{}{}` reached. -/
structure Worker where
  commit : Option Commit
  err : Option GoError
  refreshTriggered : Bool
  reads : Nat
  refreshes : Nat
  sleeps : Nat
  clock : Nat
  trace : List Event
  done : Bool
deriving DecidableEq, Repr

/-- The outcome of one invocation: `Converged` is `return commit`, `Failed` is
`t.Fatal(err)` in the `done` branch, `TimedOut` is the `t.Fatalf` of the
timeout branch. -/
inductive PollOutcome
  | Converged (commit : Option Commit)
  | TimedOut
  | Failed (err : GoError)
deriving DecidableEq, Repr

/-- The constant `time.Second`. -/
def Second : Nat := 1000000000

/-- Wrap-around of a 64-bit signed integer (`time.Duration` is an `int64`). -/
def wrapInt64 (x : Int) : Int := (x + 2 ^ 63) % 2 ^ 64 - 2 ^ 63

/-- The local `wait := time.Second * 9 * ciFactor`. The package variable
`ciFactor` is declared elsewhere in the package and is a parameter here. -/
def wait (ciFactor : Int) : Int := wrapInt64 (wrapInt64 ((Second : Int) * 9) * ciFactor)

/-- The instant at which the channel of `time.After(wait)` becomes ready: a
timer with a non-positive duration fires at once. -/
def deadline (ciFactor : Int) : Nat := (wait ciFactor).toNat

/-- The error built by
`fmt.Errorf("failed to trigger VCS refresh for repo %s: %s", repoRevSpec.URI, err)`. -/
def refreshError (uri : String) (e : GoError) : GoError :=
  { code := codes_Unknown,
    msg := "failed to trigger VCS refresh for repo " ++ uri ++ ": " ++ e.msg }

/-- The worker before its first iteration (`refreshTriggered := false`). -/
def Worker.init : Worker :=
  { commit := none, err := none, refreshTriggered := false, reads := 0, refreshes := 0,
    sleeps := 0, clock := 0, trace := [], done := false }

/-- The statement `time.Sleep(time.Second)` closing an iteration. -/
def Worker.sleep (w : Worker) : Worker :=
  { w with sleeps := w.sleeps + 1, clock := w.clock + Second,
           trace := w.trace ++ [Event.sleep Second] }

/-- One pass through the body of the worker's `for` loop. -/
def iteration (r : Remote) (uri : String) (w : Worker) : Worker :=
  -- commit, err = cl.Repos.GetCommit(ctx, &repoRevSpec)
  let w1 : Worker :=
    { w with commit := (r.GetCommit w.reads).1, err := (r.GetCommit w.reads).2,
             reads := w.reads + 1, clock := w.clock + r.GetCommitDur w.reads,
             trace := w.trace ++ [Event.getCommit w.reads] }
  -- if err == nil || grpc.Code(err) != codes.NotFound { break }
  if w1.err = none ∨ grpcCode w1.err ≠ codes_NotFound then
    { w1 with done := true }
  else if w1.refreshTriggered = false then
    -- if _, err = cl.MirrorRepos.RefreshVCS(...); err != nil { err = fmt.Errorf(...); break }
    let w2 : Worker :=
      { w1 with err := r.RefreshVCS w1.refreshes, refreshes := w1.refreshes + 1,
                clock := w1.clock + r.RefreshVCSDur w1.refreshes,
                trace := w1.trace ++ [Event.refreshVCS w1.refreshes] }
    match w2.err with
    | some e => { w2 with err := some (refreshError uri e), done := true }
    | none => Worker.sleep { w2 with refreshTriggered := true }
  else
    Worker.sleep w1

/-- The worker after at most `n` passes through the loop body: once the loop
is left the state no longer changes. -/
def workerRun (r : Remote) (uri : String) : Nat → Worker
  | 0 => Worker.init
  | n + 1 =>
    let w := workerRun r uri n
    if w.done then w else iteration r uri w

/-- The `select` of the caller, for a worker state `w` and the instant `dl` at
which the timeout channel becomes ready: the `done` branch is taken when the
worker has signalled before `dl` (or at `dl`, if the scheduler picks it). -/
def selectOutcome (r : Remote) (dl : Nat) (w : Worker) : PollOutcome :=
  if w.done = true ∧ (w.clock < dl ∨ (w.clock = dl ∧ r.selectTie = true)) then
    match w.err with
    | some e => PollOutcome.Failed e
    | none => PollOutcome.Converged w.commit
  else
    PollOutcome.TimedOut

/-- The number of passes after which a worker that has not signalled can no
longer do so before the deadline `dl`: every unfinished pass sleeps a second. -/
def passesBefore (dl : Nat) : Nat := dl / Second + 1

/-- The poller with an arbitrary deadline `dl` in place of `time.After(wait)`. -/
def pollUntil (dl : Nat) (r : Remote) (uri : String) : PollOutcome :=
  selectOutcome r dl (workerRun r uri (passesBefore dl))

/-- The function `getCommitWithRefreshAndRetry`, for the repository `uri`. -/
def getCommitWithRefreshAndRetry (ciFactor : Int) (r : Remote) (uri : String) : PollOutcome :=
  pollUntil (deadline ciFactor) r uri

/-! ## Sample remotes -/

/-- An error with the gRPC code `codes.NotFound`. -/
def notFoundErr : GoError := { code := codes_NotFound, msg := "not found" }

/-- A remote that answers the reads from a list and NotFound afterwards,
never fails a refresh, and answers every call instantly. -/
def remoteOfList (answers : List (Option Commit × Option GoError)) : Remote :=
  { GetCommit := fun i => answers.getD i (none, some notFoundErr),
    GetCommitDur := fun _ => 0,
    RefreshVCS := fun _ => none,
    RefreshVCSDur := fun _ => 0,
    selectTie := false }

/-- An error with the gRPC code `codes.PermissionDenied`. -/
def permissionDenied : GoError := { code := 7, msg := "permission denied" }

/-- A remote on which the commit becomes visible only at the eleventh read:
the first ten reads are answered NotFound, every call is instantaneous. -/
def lateRemote : Remote :=
  { GetCommit := fun i => if i < 10 then (none, some notFoundErr) else (some ⟨"abc"⟩, none),
    GetCommitDur := fun _ => 0,
    RefreshVCS := fun _ => none,
    RefreshVCSDur := fun _ => 0,
    selectTie := false }

/-- The read answer `a` is classified as NotFound: a non-nil error whose gRPC
code is `codes.NotFound` (the negation of the loop's `break` condition). -/
def isNotFound (a : Option Commit × Option GoError) : Prop :=
  ¬ (a.2 = none ∨ grpcCode a.2 ≠ codes_NotFound)

instance (a : Option Commit × Option GoError) : Decidable (isNotFound a) := by
  unfold isNotFound; infer_instance

/-- The actions of a worker whose first `j` reads were all answered NotFound
and whose refresh succeeded: read, refresh, sleep in the first pass, then read
and sleep in each later one. -/
def notFoundTrace : Nat → List Event
  | 0 => []
  | 1 => [Event.getCommit 0, Event.refreshVCS 0, Event.sleep Second]
  | j + 2 => notFoundTrace (j + 1) ++ [Event.getCommit (j + 1), Event.sleep Second]

/-! ## Data model of the fixture helpers -/

/-- How a helper waits for a command: `cmd.CombinedOutput()` waits for the
command without any time limit, `executil.CmdCombinedOutputWithTimeout(d, cmd)`
gives up after `d`. -/
inductive RunMode
  | CombinedOutput
  | CmdCombinedOutputWithTimeout (d : Nat)
deriving DecidableEq, Repr

/-- An `*exec.Cmd` as far as the helpers set it up. -/
structure Cmd where
  Args : List String
  Env : List String
  Dir : String
  Stdin : Option String
deriving DecidableEq, Repr

/-- A command together with the way it was run. -/
structure Invocation where
  cmd : Cmd
  mode : RunMode
deriving DecidableEq, Repr

/-- An `*rsa.PrivateKey` as far as `prepGitSSHCommand` uses it: the error of
`ssh.NewPublicKey`, the bytes of `ssh.MarshalAuthorizedKey` and the PEM
encoding of the private key. -/
structure Key where
  publicKeyErr : Option GoError
  authorizedKey : String
  privatePEM : String
deriving DecidableEq, Repr

/-- The machine the helpers run on: the answers of the file-system calls and
of the commands (`Run n inv` is the combined output and error of the `n`-th
command issued, counting from 0), the path functions `filepath.Join` and
`filepath.Dir`, and `strconv.Quote`, by which the verb `%q` formats a string. -/
structure Host where
  TempDir : String × Option GoError
  MkdirAll : String → Option GoError
  Mkdir : String → Option GoError
  WriteFile : String → String → Option GoError
  Run : Nat → Invocation → String × Option GoError
  Join : String → String → String
  DirOf : String → String
  Quote : String → String

/-- The function `prepGitCommand`: environment variables for a git command. -/
def prepGitCommand (cmd : Cmd) : Cmd :=
  { cmd with Env := cmd.Env ++ ["GIT_CONFIG_NOSYSTEM=1", "HOME=/doesnotexist",
                                 "XDG_CONFIG_HOME=/doesnotexist"]
                      ++ ["GIT_TRACE=1"] ++ ["GIT_CURL_VERBOSE=1"] ++ ["GIT_TRACE_PACKET=1"]
                      ++ ["GIT_TRACE_PACK_ACCESS=1"] }

/-- The function `prepGitSSHCommand`: writes the key pair under `dir/.ssh` and
points git to it; the command is returned together with the error. -/
def prepGitSSHCommand (h : Host) (cmd : Cmd) (dir : String) (key : Key) : Cmd × Option GoError :=
  let sshDir := h.Join dir ".ssh"
  match h.Mkdir sshDir with
  | some e => (cmd, some e)
  | none =>
    let idFile := h.Join sshDir "sshkey"
    match key.publicKeyErr with
    | some e => (cmd, some e)
    | none =>
      match h.WriteFile (idFile ++ ".pub") key.authorizedKey with
      | some e => (cmd, some e)
      | none =>
        match h.WriteFile idFile key.privatePEM with
        | some e => (cmd, some e)
        | none =>
          ({ cmd with Env := cmd.Env ++ ["GIT_SSH_COMMAND=ssh -i " ++ idFile ++
              " -F /dev/null -o StrictHostKeyChecking=no -o UserKnownHostsFile=/dev/null"] },
            none)

/-- The error built by `fmt.Errorf("exec %q failed: %s\n%s", cmd.Args, err, out)`:
the verb `%q` prints a slice of strings as its elements, each quoted by
`strconv.Quote`, separated by blanks and enclosed in square brackets. -/
def execError (h : Host) (cmd : Cmd) (e : GoError) (out : String) : GoError :=
  { code := codes_Unknown,
    msg := "exec [" ++ " ".intercalate (cmd.Args.map h.Quote) ++
      "] failed: " ++ e.msg ++ "\n" ++ out }

/-- The constant `time.Second*5` passed to `executil.CmdCombinedOutputWithTimeout`. -/
def pushTimeout : Nat := Second * 5

/-- The command `git add path` of `PushRepo`, run with `cmd.CombinedOutput()`. -/
def gitAdd (dir path : String) : Invocation :=
  { cmd := prepGitCommand { Args := ["git", "add", path], Env := [], Dir := dir, Stdin := none },
    mode := RunMode.CombinedOutput }

/-- The command `git clone cloneURL dir` of `PushRepo`, run in `tmpDir` with
`cmd.CombinedOutput()`. -/
def gitClone (cloneURL tmpDir dir : String) : Invocation :=
  { cmd := prepGitCommand { Args := ["git", "clone", cloneURL, dir], Env := [], Dir := tmpDir,
                            Stdin := none },
    mode := RunMode.CombinedOutput }

/-- The command `git commit` of `PushRepo`, run with `cmd.CombinedOutput()`. -/
def gitCommit (dir : String) : Invocation :=
  { cmd := prepGitCommand
      { Args := ["git", "commit", "-m", "hello", "--author", "a <a@a.com>", "--date",
                 "2006-01-02T15:04:05Z"],
        Env := ["GIT_COMMITTER_NAME=a", "GIT_COMMITTER_EMAIL=a@a.com",
                "GIT_COMMITTER_DATE=2006-01-02T15:04:05Z"],
        Dir := dir, Stdin := none },
    mode := RunMode.CombinedOutput }

/-- The commands `git push pushURL ref` of the `deleteBranch` block, with the
environment `env` of the push before them and the five-second timeout. -/
def gitPushRef (pushURL dir : String) (env : List String) (ref : String) : Invocation :=
  { cmd := { Args := ["git", "push", pushURL, ref], Env := env, Dir := dir, Stdin := none },
    mode := RunMode.CmdCombinedOutputWithTimeout pushTimeout }

/-- The `for path, data := range files` loop of `PushRepo`, over the entries
in the order the iteration yields them; `log` is the list of the commands
issued so far. -/
def addFiles (h : Host) (dir : String) :
    List (String × String) → List Invocation → List Invocation × Option GoError
  | [], log => (log, none)
  | (path, data) :: rest, log =>
    match h.MkdirAll (h.DirOf (h.Join dir path)) with
    | some e => (log, some e)
    | none =>
      match h.WriteFile (h.Join dir path) data with
      | some e => (log, some e)
      | none =>
        match h.Run log.length (gitAdd dir path) with
        | (out, some e) => (log ++ [gitAdd dir path], some (execError h (gitAdd dir path).cmd e out))
        | (_, none) => addFiles h dir rest (log ++ [gitAdd dir path])

/-- The `if deleteBranch` block of `PushRepo`: push to `tmpbranch`, then delete
it, both with the environment `env` of the push before. -/
def pushAndDeleteBranch (h : Host) (pushURL dir : String) (env : List String)
    (log : List Invocation) : List Invocation × Option GoError :=
  -- Create new branch.
  let inv1 := gitPushRef pushURL dir env "master:tmpbranch"
  match h.Run log.length inv1 with
  | (out, some e) => (log ++ [inv1], some (execError h inv1.cmd e out))
  | (_, none) =>
    -- Delete the branch.
    let inv2 := gitPushRef pushURL dir env ":tmpbranch"
    match h.Run (log ++ [inv1]).length inv2 with
    | (out, some e) => (log ++ [inv1] ++ [inv2], some (execError h inv2.cmd e out))
    | (_, none) => (log ++ [inv1] ++ [inv2], none)

/-- The part of `PushRepo` from `// Push the commits.` on. -/
def pushCommits (h : Host) (pushURL dir : String) (key : Option Key) (deleteBranch : Bool)
    (log : List Invocation) : List Invocation × Option GoError :=
  let pushURL := if pushURL = "" then "origin" else pushURL
  let cmd0 := prepGitCommand { Args := ["git", "push", pushURL, "master"],
                               Env := ["GIT_ASKPASS=true"], Dir := dir, Stdin := none }
  let prepared : Cmd × Option GoError :=
    match key with
    | some k => prepGitSSHCommand h cmd0 dir k
    | none => (cmd0, none)
  match prepared with
  | (_, some e) => (log, some e)
  | (cmd, none) =>
    let inv : Invocation := { cmd := cmd, mode := RunMode.CmdCombinedOutputWithTimeout pushTimeout }
    match h.Run log.length inv with
    | (out, some e) => (log ++ [inv], some (execError h cmd e out))
    | (_, none) =>
      if deleteBranch then pushAndDeleteBranch h pushURL dir cmd.Env (log ++ [inv])
      else (log ++ [inv], none)

/-- The file set committed by `PushRepo`: `if files == nil` it is the single
file `myfile.txt` with content `a`. -/
def filesOrDefault : Option (List (String × String)) → List (String × String)
  | none => [("myfile.txt", "a")]
  | some fs => fs

/-- The function `PushRepo`: the commands it issued, in order, and the error
it returns. `files` is `none` for a nil map and otherwise the entries of the
map in iteration order. -/
def PushRepo (h : Host) (pushURL cloneURL : String) (key : Option Key)
    (files : Option (List (String × String))) (deleteBranch : Bool) :
    List Invocation × Option GoError :=
  if cloneURL = "" then
    ([], some { code := codes_Unknown,
                msg := "PushRepo can't be called with \x60cloneURL\x60 unset." })
  else
    match h.TempDir with
    | (_, some e) => ([], some e)
    | (tmpDir, none) =>
      let dir := h.Join tmpDir "testrepo"
      let cloneInv := gitClone cloneURL tmpDir dir
      match h.Run 0 cloneInv with
      | (out, some e) => ([cloneInv], some (execError h cloneInv.cmd e out))
      | (_, none) =>
        match addFiles h dir (filesOrDefault files) [cloneInv] with
        | (log, some e) => (log, some e)
        | (log, none) =>
          let commitInv := gitCommit dir
          match h.Run log.length commitInv with
          | (out, some e) => (log ++ [commitInv], some (execError h commitInv.cmd e out))
          | (_, none) => pushCommits h pushURL dir key deleteBranch (log ++ [commitInv])

/-- The function `CloneRepo`: the commands it issued and the error it returns. -/
def CloneRepo (h : Host) (cloneURL dir : String) (key : Option Key) (args : List String)
    (emptyFetch : Bool) : List Invocation × Option GoError :=
  let dirOrErr : String × Option GoError := if dir = "" then h.TempDir else (dir, none)
  match dirOrErr with
  | (_, some e) => ([], some e)
  | (dir, none) =>
    let cmd0 := prepGitCommand { Args := ["git", "clone"] ++ args ++ [cloneURL, "testrepo"],
                                 Env := ["GIT_ASKPASS=true"], Dir := dir, Stdin := some "\n" }
    let prepared : Cmd × Option GoError :=
      match key with
      | some k => prepGitSSHCommand h cmd0 dir k
      | none => (cmd0, none)
    match prepared with
    | (_, some e) => ([], some e)
    | (cmd, none) =>
      let inv : Invocation :=
        { cmd := cmd, mode := RunMode.CmdCombinedOutputWithTimeout pushTimeout }
      match h.Run 0 inv with
      | (out, some e) => ([inv], some (execError h cmd e out))
      | (_, none) =>
        if emptyFetch then
          let fetch : Cmd := { Args := ["git", "fetch"], Env := cmd.Env,
                               Dir := h.Join dir "testrepo", Stdin := some "\n" }
          let fetchInv : Invocation :=
            { cmd := fetch, mode := RunMode.CmdCombinedOutputWithTimeout pushTimeout }
          match h.Run 1 fetchInv with
          | (out, some e) => ([inv, fetchInv], some (execError h fetch e out))
          | (_, none) => ([inv, fetchInv], none)
        else ([inv], none)

/-- What a Go function does when called: it returns a value, or the goroutine
panics (here always with a nil pointer dereference). -/
inductive GoResult (α : Type)
  | returned (a : α)
  | panic (msg : String)
deriving DecidableEq, Repr

/-- The message of the run-time error raised when a nil pointer is dereferenced. -/
def nilDereference : String :=
  "runtime error: invalid memory address or nil pointer dereference"

/-- A `*sourcegraph.Repo` as far as the helpers read it. -/
structure Repo where
  URI : String
  HTTPCloneURL : String
  DefaultBranch : String
deriving DecidableEq, Repr

/-- The request `sourcegraph.ReposCreateOp` as `CreateRepo` fills it. -/
structure ReposCreateOp where
  URI : String
  VCS : String
  CloneURL : String
  Mirror : Bool
deriving DecidableEq, Repr

/-- Everything the fixture helpers talk to: the answer of `cl.Repos.Create`,
the answer of `authutil.AddSystemAuthToURL` for a scope and a URL, the URL of
the test server started for a mirror, the remote ports and the host. -/
structure Server where
  Create : ReposCreateOp → Option Repo × Option GoError
  AddSystemAuthToURL : String → String → String × Option GoError
  testServerURL : String
  remote : Remote
  host : Host

/-- The function `CreateRepo`: the repository and the error it returns (the
`done` function is left out). -/
def CreateRepo (s : Server) (repoURI : String) (mirror : Bool) : Option Repo × Option GoError :=
  let op : ReposCreateOp :=
    if mirror then { URI := repoURI, VCS := "git", CloneURL := s.testServerURL, Mirror := true }
    else { URI := repoURI, VCS := "git", CloneURL := "", Mirror := false }
  match s.Create op with
  | (_, some e) => (none, some e)
  | (repo, none) => (repo, none)

/-- What `CreateAndPushRepoFiles` returns (`repo`, `commitID`, `err`), with the
calls it made to the remote ports (`trace`) and the commands it issued (`log`). -/
structure PushResult where
  repo : Option Repo
  commitID : String
  err : Option GoError
  trace : List Event
  log : List Invocation
deriving DecidableEq, Repr

/-- The function `CreateAndPushRepoFiles`. -/
def CreateAndPushRepoFiles (s : Server) (repoURI : String)
    (files : Option (List (String × String))) : GoResult PushResult :=
  match CreateRepo s repoURI false with
  | (_, some e) =>
    GoResult.returned { repo := none, commitID := "", err := some e, trace := [], log := [] }
  | (none, none) => GoResult.panic nilDereference
  | (some repo, none) =>
    match s.AddSystemAuthToURL "internal:write" repo.HTTPCloneURL with
    | (_, some e) =>
      GoResult.returned { repo := none, commitID := "", err := some e, trace := [], log := [] }
    | (authedCloneURL, none) =>
      match PushRepo s.host authedCloneURL authedCloneURL none files false with
      | (log, some e) =>
        GoResult.returned { repo := none, commitID := "", err := some e, trace := [], log := log }
      | (log, none) =>
        -- commit, err := cl.Repos.GetCommit(ctx, &sourcegraph.RepoRevSpec{..., Rev: "master"})
        match s.remote.GetCommit 0 with
        | (_, some e) =>
          GoResult.returned { repo := none, commitID := "", err := some e,
                              trace := [Event.getCommit 0], log := log }
        | (none, none) => GoResult.panic nilDereference
        | (some commit, none) =>
          GoResult.returned { repo := some repo, commitID := commit.ID, err := none,
                              trace := [Event.getCommit 0], log := log }

/-- The escape sequence that `strconv.Quote` writes for a double quote, a
backslash and the control characters that have a short form; every other
character is kept. -/
def quoteChar (c : Char) : String :=
  if c = '"' then "\\\""
  else if c = '\\' then "\\\\"
  else if c = '\n' then "\\n"
  else if c = '\t' then "\\t"
  else if c = '\r' then "\\r"
  else String.singleton c

/-- The function `strconv.Quote` on strings of printable characters, the
double quote, the backslash, newline, tab and carriage return. -/
def quoteString (s : String) : String :=
  "\"" ++ String.join (s.toList.map quoteChar) ++ "\""

/-- A host on which every file-system call and every command succeeds. -/
def quietHost : Host :=
  { TempDir := ("/tmp/fixture", none),
    MkdirAll := fun _ => none,
    Mkdir := fun _ => none,
    WriteFile := fun _ _ => none,
    Run := fun _ _ => ("", none),
    Join := fun a b => a ++ "/" ++ b,
    DirOf := fun p => "/".intercalate (p.splitOn "/").dropLast,
    Quote := quoteString }

/-- A server that creates every repository asked for, on `quietHost`, whose
read port answers NotFound to the first read of the pushed revision and the
commit `abc` to the second. -/
def laggingServer : Server :=
  { Create := fun op =>
      (some { URI := op.URI, HTTPCloneURL := "http://localhost/" ++ op.URI,
              DefaultBranch := "master" }, none),
    AddSystemAuthToURL := fun _ url => (url, none),
    testServerURL := "http://127.0.0.1:0",
    remote := remoteOfList [(none, some notFoundErr), (some ⟨"abc"⟩, none)],
    host := quietHost }

/-- The first two arguments of a command, such as `git push`. -/
def Invocation.verb (inv : Invocation) : List String := inv.cmd.Args.take 2

/-- The way `PushRepo` runs a command: a push with the five-second timeout,
the clone, the adds and the commit that prepare it with plain
`CombinedOutput`. -/
def PushRepoMode (inv : Invocation) : Prop :=
  (inv.verb = ["git", "push"] ∧ inv.mode = RunMode.CmdCombinedOutputWithTimeout pushTimeout) ∨
  (inv.mode = RunMode.CombinedOutput ∧
    (inv.verb = ["git", "clone"] ∨ inv.verb = ["git", "add"] ∨ inv.verb = ["git", "commit"]))

/-- The way `CloneRepo` runs a command: the clone and the fetch both with the
five-second timeout. -/
def CloneRepoMode (inv : Invocation) : Prop :=
  inv.mode = RunMode.CmdCombinedOutputWithTimeout pushTimeout ∧
    (inv.verb = ["git", "clone"] ∨ inv.verb = ["git", "fetch"])

/-! ## Data model of the document parser test helper -/

/-- The node types of `golang.org/x/net/html`. -/
inductive NodeType
  | ErrorNode
  | TextNode
  | DocumentNode
  | ElementNode
  | CommentNode
  | DoctypeNode
deriving DecidableEq, Repr

/-- The atoms of `golang.org/x/net/html/atom` that `parseMeta` looks at; `zero`
is the atom of a node that is not a known element, `other` any further atom. -/
inductive Atom
  | zero
  | Title
  | Html
  | Head
  | Body
  | other (a : Nat)
deriving DecidableEq, Repr

/-- An `*html.Node`: its type, atom and data, and its children from
`FirstChild` along `NextSibling`. -/
inductive Node
  | mk (nodeType : NodeType) (DataAtom : Atom) (Data : String) (children : List Node)

/-- The field `Type` of a node. -/
def Node.nodeType : Node → NodeType
  | Node.mk t _ _ _ => t

/-- The field `DataAtom` of a node. -/
def Node.DataAtom : Node → Atom
  | Node.mk _ a _ _ => a

/-- The field `Data` of a node. -/
def Node.Data : Node → String
  | Node.mk _ _ d _ => d

/-- The children of a node, the first being `FirstChild`. -/
def Node.children : Node → List Node
  | Node.mk _ _ _ cs => cs

/-- The type `meta` of package `ui`, declared elsewhere in the package, as far
as `parseMeta` and its test use it. -/
structure meta where
  Title : String
deriving DecidableEq, Repr

mutual
/-- The function `walk`: calls `fn` on `n` and, when it answers true, walks the
children of `n` in order. The callback is a closure over a state `σ`, so it
takes the state and returns the new one, or panics. -/
def walk {σ : Type} (fn : Node → σ → GoResult (Bool × σ)) : Node → σ → GoResult σ
  | Node.mk t a d children, m =>
    match fn (Node.mk t a d children) m with
    | GoResult.panic msg => GoResult.panic msg
    | GoResult.returned (true, m1) => walkChildren fn children m1
    | GoResult.returned (false, m1) => GoResult.returned m1
/-- The loop `for c := n.FirstChild; c != nil; c = c.NextSibling` of `walk`. -/
def walkChildren {σ : Type} (fn : Node → σ → GoResult (Bool × σ)) :
    List Node → σ → GoResult σ
  | [], m => GoResult.returned m
  | c :: cs, m =>
    match walk fn c m with
    | GoResult.panic msg => GoResult.panic msg
    | GoResult.returned m1 => walkChildren fn cs m1
end

/-- The callback that `parseMeta` passes to `walk`, a closure over `m`. The
read `n.FirstChild.Data` dereferences `n.FirstChild`, which is nil when the
node has no child. -/
def visit (n : Node) (m : meta) : GoResult (Bool × meta) :=
  if n.nodeType = NodeType.DocumentNode then GoResult.returned (true, m)
  else
    match n.DataAtom with
    | Atom.Title =>
      match n.children with
      | [] => GoResult.panic nilDereference
      | c :: _ => GoResult.returned (false, { m with Title := c.Data })
    | Atom.Html => GoResult.returned (true, m)
    | Atom.Head => GoResult.returned (true, m)
    | _ => GoResult.returned (false, m)

/-- The function `parseMeta`, given what `html.Parse` returned for the source
(`root`, `err`): the pair `(*meta, error)` it returns, or the panic. -/
def parseMeta (parsed : Option Node × Option GoError) : GoResult (Option meta × Option GoError) :=
  match parsed with
  | (_, some err) => GoResult.returned (none, some err)
  | (none, none) => GoResult.panic nilDereference
  | (some root, none) =>
    match walk visit root { Title := "" } with
    | GoResult.panic msg => GoResult.panic msg
    | GoResult.returned m => GoResult.returned (some m, none)

/-- A text node. -/
def textNode (s : String) : Node := Node.mk NodeType.TextNode Atom.zero s []

/-- An element node. -/
def element (a : Atom) (tag : String) (children : List Node) : Node :=
  Node.mk NodeType.ElementNode a tag children

/-- A document node. -/
def document (children : List Node) : Node :=
  Node.mk NodeType.DocumentNode Atom.zero "" children

/-- The tree that `html.Parse` builds for
`<html><head><title>mytitle</title></head><body></body></html>`. -/
def docWithTitle : Node :=
  document [element Atom.Html "html"
    [element Atom.Head "head" [element Atom.Title "title" [textNode "mytitle"]],
     element Atom.Body "body" []]]

/-- The tree that `html.Parse` builds for `<html><head></head></html>`. -/
def docWithoutTitle : Node :=
  document [element Atom.Html "html" [element Atom.Head "head" [], element Atom.Body "body" []]]

/-- The tree that `html.Parse` builds for
`<html><head><title></title></head></html>`: an empty title element has no
text node below it. -/
def docEmptyTitle : Node :=
  document [element Atom.Html "html"
    [element Atom.Head "head" [element Atom.Title "title" []], element Atom.Body "body" []]]

/-- The tree that `html.Parse` builds for
`<html><head><title>a</title><title>b</title></head><body></body></html>`. -/
def docTwoTitles : Node :=
  document [element Atom.Html "html"
    [element Atom.Head "head"
      [element Atom.Title "title" [textNode "a"], element Atom.Title "title" [textNode "b"]],
     element Atom.Body "body" []]]

/-- A node on which the callback answers false without touching `m`: not a
document node, and neither a title, an html nor a head element. -/
def Node.skipped (n : Node) : Prop :=
  n.nodeType ≠ NodeType.DocumentNode ∧ n.DataAtom ≠ Atom.Title ∧ n.DataAtom ≠ Atom.Html ∧
    n.DataAtom ≠ Atom.Head

/-- A title element that has a first child: the callback stores the data of
that child in `m.Title` and answers false. -/
def Node.titled (n : Node) : Prop :=
  n.nodeType ≠ NodeType.DocumentNode ∧ n.DataAtom = Atom.Title ∧ n.children ≠ []

/-! ## Checks on concrete inputs -/

example : deadline 1 = 9 * Second := by decide

example :
    getCommitWithRefreshAndRetry 1
      (remoteOfList [(none, some notFoundErr), (none, some notFoundErr), (some ⟨"abc"⟩, none)])
      "r" = PollOutcome.Converged (some ⟨"abc"⟩) := by
  decide

example :
    (PushRepo quietHost "" "http://localhost/r" none none false).1.map
        (fun inv => (inv.verb, inv.mode))
      = [(["git", "clone"], RunMode.CombinedOutput), (["git", "add"], RunMode.CombinedOutput),
         (["git", "commit"], RunMode.CombinedOutput),
         (["git", "push"], RunMode.CmdCombinedOutputWithTimeout pushTimeout)] := by
  decide

example : parseMeta (some docWithTitle, none)
    = GoResult.returned (some { Title := "mytitle" }, none) := by decide

example : parseMeta (some docWithoutTitle, none)
    = GoResult.returned (some { Title := "" }, none) := by decide

example : parseMeta (some docEmptyTitle, none) = GoResult.panic nilDereference := by decide

example : quoteString "a\"b\\c" = "\"a\\\"b\\\\c\"" := by decide

example :
    (execError quietHost (gitAdd "/d" "my file").cmd permissionDenied "out").msg
      = "exec [\"git\" \"add\" \"my file\"] failed: permission denied\nout" := by
  decide

/-! ## Lemmas on one pass of the loop -/

theorem iteration_break (r : Remote) (uri : String) (w : Worker)
    (h : ¬ isNotFound (r.GetCommit w.reads)) :
    iteration r uri w =
      { w with commit := (r.GetCommit w.reads).1, err := (r.GetCommit w.reads).2,
               reads := w.reads + 1, clock := w.clock + r.GetCommitDur w.reads,
               trace := w.trace ++ [Event.getCommit w.reads], done := true } := by
  unfold isNotFound at h
  simp only [not_not] at h
  simp only [iteration]
  rw [if_pos h]

theorem iteration_refresh_ok (r : Remote) (uri : String) (w : Worker)
    (h : isNotFound (r.GetCommit w.reads)) (ht : w.refreshTriggered = false)
    (hr : r.RefreshVCS w.refreshes = none) :
    iteration r uri w =
      { w with commit := (r.GetCommit w.reads).1, err := none,
               refreshTriggered := true,
               reads := w.reads + 1, refreshes := w.refreshes + 1, sleeps := w.sleeps + 1,
               clock := w.clock + r.GetCommitDur w.reads + r.RefreshVCSDur w.refreshes + Second,
               trace := w.trace ++ [Event.getCommit w.reads] ++ [Event.refreshVCS w.refreshes]
                          ++ [Event.sleep Second] } := by
  unfold isNotFound at h
  simp only [iteration]
  rw [if_neg h, if_pos ht]
  simp only [hr, Worker.sleep]

theorem iteration_refresh_failed (r : Remote) (uri : String) (w : Worker) (e : GoError)
    (h : isNotFound (r.GetCommit w.reads)) (ht : w.refreshTriggered = false)
    (hr : r.RefreshVCS w.refreshes = some e) :
    iteration r uri w =
      { w with commit := (r.GetCommit w.reads).1, err := some (refreshError uri e),
               reads := w.reads + 1, refreshes := w.refreshes + 1,
               clock := w.clock + r.GetCommitDur w.reads + r.RefreshVCSDur w.refreshes,
               trace := w.trace ++ [Event.getCommit w.reads] ++ [Event.refreshVCS w.refreshes],
               done := true } := by
  unfold isNotFound at h
  simp only [iteration]
  rw [if_neg h, if_pos ht]
  simp only [hr]

theorem iteration_retry (r : Remote) (uri : String) (w : Worker)
    (h : isNotFound (r.GetCommit w.reads)) (ht : w.refreshTriggered = true) :
    iteration r uri w =
      { w with commit := (r.GetCommit w.reads).1, err := (r.GetCommit w.reads).2,
               reads := w.reads + 1, sleeps := w.sleeps + 1,
               clock := w.clock + r.GetCommitDur w.reads + Second,
               trace := w.trace ++ [Event.getCommit w.reads] ++ [Event.sleep Second] } := by
  unfold isNotFound at h
  simp only [iteration]
  rw [if_neg h, if_neg (by simp [ht])]
  simp only [Worker.sleep]

/-! ## Lemmas on the run of the worker -/

theorem workerRun_succ (r : Remote) (uri : String) (n : Nat) :
    workerRun r uri (n + 1) =
      if (workerRun r uri n).done then workerRun r uri n
      else iteration r uri (workerRun r uri n) := rfl

theorem workerRun_add_of_done (r : Remote) (uri : String) (n : Nat)
    (h : (workerRun r uri n).done = true) (d : Nat) :
    workerRun r uri (n + d) = workerRun r uri n := by
  induction d with
  | zero => rfl
  | succ d ih =>
    rw [← Nat.add_assoc, workerRun_succ, ih, if_pos h]

theorem workerRun_of_done (r : Remote) (uri : String) (n m : Nat)
    (h : (workerRun r uri n).done = true) (hm : n ≤ m) :
    workerRun r uri m = workerRun r uri n := by
  obtain ⟨d, rfl⟩ := Nat.exists_eq_add_of_le hm
  exact workerRun_add_of_done r uri n h d

theorem iteration_clock_le (r : Remote) (uri : String) (w : Worker) :
    w.clock ≤ (iteration r uri w).clock := by
  by_cases h : isNotFound (r.GetCommit w.reads)
  · cases ht : w.refreshTriggered
    · cases hr : r.RefreshVCS w.refreshes with
      | none => rw [iteration_refresh_ok r uri w h ht hr]; simp only; omega
      | some e => rw [iteration_refresh_failed r uri w e h ht hr]; simp only; omega
    · rw [iteration_retry r uri w h ht]; simp only; omega
  · rw [iteration_break r uri w h]; simp only; omega

theorem iteration_clock_of_not_done (r : Remote) (uri : String) (w : Worker)
    (h : (iteration r uri w).done = false) :
    w.clock + Second ≤ (iteration r uri w).clock := by
  by_cases hn : isNotFound (r.GetCommit w.reads)
  · cases ht : w.refreshTriggered
    · cases hr : r.RefreshVCS w.refreshes with
      | none => rw [iteration_refresh_ok r uri w hn ht hr]; simp only; omega
      | some e => rw [iteration_refresh_failed r uri w e hn ht hr] at h; simp at h
    · rw [iteration_retry r uri w hn ht]; simp only; omega
  · rw [iteration_break r uri w hn] at h; simp at h

theorem workerRun_clock_mono (r : Remote) (uri : String) (n m : Nat) (h : n ≤ m) :
    (workerRun r uri n).clock ≤ (workerRun r uri m).clock := by
  induction m with
  | zero =>
    have : n = 0 := by omega
    subst this; exact le_refl _
  | succ m ih =>
    rcases Nat.eq_or_lt_of_le h with h1 | h1
    · subst h1; exact le_refl _
    · have := ih (by omega)
      rw [workerRun_succ]
      split_ifs
      · exact this
      · exact le_trans this (iteration_clock_le r uri _)

theorem workerRun_not_done_prev (r : Remote) (uri : String) (n : Nat)
    (h : (workerRun r uri (n + 1)).done = false) : (workerRun r uri n).done = false := by
  by_contra hc
  simp only [Bool.not_eq_false] at hc
  rw [workerRun_succ, if_pos hc, hc] at h
  exact absurd h (by simp)

theorem workerRun_clock_of_not_done (r : Remote) (uri : String) (n : Nat)
    (h : (workerRun r uri n).done = false) : n * Second ≤ (workerRun r uri n).clock := by
  induction n with
  | zero => simp
  | succ n ih =>
    have hp := workerRun_not_done_prev r uri n h
    have := ih hp
    rw [workerRun_succ] at h ⊢
    simp only [hp] at h ⊢
    have := iteration_clock_of_not_done r uri _ h
    simp only [Bool.false_eq_true, if_false]
    rw [Nat.succ_mul]
    omega

theorem passesBefore_spec (dl : Nat) : dl < passesBefore dl * Second := by
  unfold passesBefore Second
  omega

/-- Adequacy of the number of passes simulated by `pollUntil`: simulating the
worker for longer never changes what the `select` returns. -/
theorem pollUntil_stable (dl : Nat) (r : Remote) (uri : String) (n : Nat)
    (hn : passesBefore dl ≤ n) :
    selectOutcome r dl (workerRun r uri n) = pollUntil dl r uri := by
  unfold pollUntil
  cases hd : (workerRun r uri (passesBefore dl)).done
  · have h1 := workerRun_clock_of_not_done r uri _ hd
    have h2 := workerRun_clock_mono r uri _ _ hn
    have h3 := passesBefore_spec dl
    have hlt : ¬ ((workerRun r uri n).done = true ∧
        ((workerRun r uri n).clock < dl ∨
          ((workerRun r uri n).clock = dl ∧ r.selectTie = true))) := by
      rintro ⟨_, h | ⟨h, _⟩⟩ <;> omega
    have hlt2 : ¬ ((workerRun r uri (passesBefore dl)).done = true ∧
        ((workerRun r uri (passesBefore dl)).clock < dl ∨
          ((workerRun r uri (passesBefore dl)).clock = dl ∧ r.selectTie = true))) := by
      rintro ⟨_, h | ⟨h, _⟩⟩ <;> omega
    simp only [selectOutcome]
    rw [if_neg hlt, if_neg hlt2]
  · rw [workerRun_of_done r uri _ n hd hn]

theorem pollUntil_of_done (dl : Nat) (r : Remote) (uri : String) (n : Nat)
    (h : (workerRun r uri n).done = true) :
    pollUntil dl r uri = selectOutcome r dl (workerRun r uri n) := by
  rw [← pollUntil_stable dl r uri (max n (passesBefore dl)) (le_max_right _ _),
    workerRun_of_done r uri n _ h (le_max_left _ _)]

theorem selectOutcome_of_not_done (r : Remote) (dl : Nat) (w : Worker)
    (h : w.done = false) : selectOutcome r dl w = PollOutcome.TimedOut := by
  simp [selectOutcome, h]

theorem selectOutcome_of_done_before (r : Remote) (dl : Nat) (w : Worker)
    (h : w.done = true) (hc : w.clock < dl) :
    selectOutcome r dl w =
      match w.err with
      | some e => PollOutcome.Failed e
      | none => PollOutcome.Converged w.commit := by
  simp only [selectOutcome]
  rw [if_pos ⟨h, Or.inl hc⟩]

/-- The state of the worker after `j` passes whose reads were all answered
NotFound, the refresh having succeeded. -/
theorem workerRun_notFound (r : Remote) (uri : String) (j : Nat)
    (hNF : ∀ i, i < j → isNotFound (r.GetCommit i)) (hR : r.RefreshVCS 0 = none) :
    (workerRun r uri j).done = false ∧
    (workerRun r uri j).refreshTriggered = decide (0 < j) ∧
    (workerRun r uri j).reads = j ∧
    (workerRun r uri j).refreshes = min j 1 ∧
    (workerRun r uri j).sleeps = j ∧
    (workerRun r uri j).clock =
      (∑ i ∈ Finset.range j, r.GetCommitDur i) + min j 1 * r.RefreshVCSDur 0 + j * Second ∧
    (workerRun r uri j).trace = notFoundTrace j := by
  induction j with
  | zero => simp [workerRun, Worker.init, notFoundTrace]
  | succ j ih =>
    obtain ⟨hd, ht, hreads, hrefr, hsl, hcl, htr⟩ := ih (fun i hi => hNF i (by omega))
    have hnf : isNotFound (r.GetCommit (workerRun r uri j).reads) := by
      rw [hreads]; exact hNF j (by omega)
    rw [workerRun_succ]
    simp only [hd, Bool.false_eq_true, if_false]
    rcases Nat.eq_zero_or_pos j with h0 | hpos
    · subst h0
      have ht0 : (workerRun r uri 0).refreshTriggered = false := by simpa using ht
      have hr0 : r.RefreshVCS (workerRun r uri 0).refreshes = none := by
        rw [hrefr]; simpa using hR
      rw [iteration_refresh_ok r uri _ hnf ht0 hr0]
      simp only [hreads, hrefr, hsl, hcl, htr, hd]
      simp [notFoundTrace]
    · have ht1 : (workerRun r uri j).refreshTriggered = true := by simpa [hpos] using ht
      rw [iteration_retry r uri _ hnf ht1]
      simp only [hreads, hrefr, hsl, hcl, htr, hd, ht1]
      obtain ⟨j', rfl⟩ : ∃ j', j = j' + 1 := ⟨j - 1, by omega⟩
      refine ⟨trivial, by simp, trivial, by simp, trivial, ?_, ?_⟩
      · rw [Finset.sum_range_succ (fun i => r.GetCommitDur i) (j' + 1)]
        simp only [Nat.succ_mul]
        have : min (j' + 1) 1 = 1 := by omega
        have h2 : min (j' + 1 + 1) 1 = 1 := by omega
        rw [this, h2]
        omega
      · simp [notFoundTrace]

/-- The state of the worker once read `k` has been answered by something
other than NotFound, the reads before it having all been answered NotFound. -/
theorem workerRun_break (r : Remote) (uri : String) (k : Nat)
    (hNF : ∀ i, i < k → isNotFound (r.GetCommit i)) (hR : r.RefreshVCS 0 = none)
    (hB : ¬ isNotFound (r.GetCommit k)) :
    (workerRun r uri (k + 1)).done = true ∧
    (workerRun r uri (k + 1)).commit = (r.GetCommit k).1 ∧
    (workerRun r uri (k + 1)).err = (r.GetCommit k).2 ∧
    (workerRun r uri (k + 1)).reads = k + 1 ∧
    (workerRun r uri (k + 1)).refreshes = min k 1 ∧
    (workerRun r uri (k + 1)).sleeps = k ∧
    (workerRun r uri (k + 1)).clock =
      (∑ i ∈ Finset.range (k + 1), r.GetCommitDur i) + min k 1 * r.RefreshVCSDur 0
        + k * Second ∧
    (workerRun r uri (k + 1)).trace = notFoundTrace k ++ [Event.getCommit k] := by
  obtain ⟨hd, _, hreads, hrefr, hsl, hcl, htr⟩ := workerRun_notFound r uri k hNF hR
  have hb : ¬ isNotFound (r.GetCommit (workerRun r uri k).reads) := by rw [hreads]; exact hB
  rw [workerRun_succ]
  simp only [hd, Bool.false_eq_true, if_false]
  rw [iteration_break r uri _ hb]
  simp only [hreads, hrefr, hsl, hcl, htr]
  refine ⟨trivial, trivial, trivial, trivial, trivial, trivial, ?_, trivial⟩
  rw [Finset.sum_range_succ (fun i => r.GetCommitDur i) k]
  omega

theorem not_isNotFound_of_found (a : Option Commit × Option GoError) (h : a.2 = none) :
    ¬ isNotFound a := by
  simp [isNotFound, h]

theorem not_isNotFound_of_code (a : Option Commit × Option GoError) (e : GoError)
    (h : a.2 = some e) (hc : e.code ≠ codes_NotFound) : ¬ isNotFound a := by
  simp [isNotFound, h, grpcCode, hc]

theorem iteration_refreshTriggered_mono (r : Remote) (uri : String) (w : Worker)
    (h : w.refreshTriggered = true) : (iteration r uri w).refreshTriggered = true := by
  by_cases hn : isNotFound (r.GetCommit w.reads)
  · rw [iteration_retry r uri w hn h]; exact h
  · rw [iteration_break r uri w hn]; exact h

theorem workerRun_refreshTriggered_mono (r : Remote) (uri : String) (n m : Nat) (hnm : n ≤ m)
    (h : (workerRun r uri n).refreshTriggered = true) :
    (workerRun r uri m).refreshTriggered = true := by
  induction m with
  | zero =>
    have : n = 0 := by omega
    subst this; exact h
  | succ m ih =>
    rcases Nat.eq_or_lt_of_le hnm with h1 | h1
    · subst h1; exact h
    · have := ih (by omega)
      rw [workerRun_succ]
      split_ifs
      · exact this
      · exact iteration_refreshTriggered_mono r uri _ this

/-- The bookkeeping invariant of the loop: the flag is set exactly when the
one refresh call has been made and has succeeded. -/
theorem workerRun_refresh_inv (r : Remote) (uri : String) (n : Nat) :
    ((workerRun r uri n).refreshTriggered = true → (workerRun r uri n).refreshes = 1) ∧
    ((workerRun r uri n).refreshTriggered = false → (workerRun r uri n).done = false →
      (workerRun r uri n).refreshes = 0) ∧
    (workerRun r uri n).refreshes ≤ 1 := by
  induction n with
  | zero => simp [workerRun, Worker.init]
  | succ n ih =>
    obtain ⟨i1, i2, i3⟩ := ih
    rw [workerRun_succ]
    cases hd : (workerRun r uri n).done
    · simp only [Bool.false_eq_true, if_false]
      by_cases hn : isNotFound (r.GetCommit (workerRun r uri n).reads)
      · cases ht : (workerRun r uri n).refreshTriggered
        · have h0 := i2 ht hd
          cases hr : r.RefreshVCS (workerRun r uri n).refreshes with
          | none => rw [iteration_refresh_ok r uri _ hn ht hr]; simp [h0]
          | some e => rw [iteration_refresh_failed r uri _ e hn ht hr]; simp [h0]
        · rw [iteration_retry r uri _ hn ht]
          simp only [ht, hd]
          exact ⟨fun _ => i1 ht, fun h => absurd h (by simp), i3⟩
      · rw [iteration_break r uri _ hn]
        simp only
        exact ⟨i1, fun _ h => absurd h (by simp), i3⟩
    · simp only [if_true]
      exact ⟨i1, i2, i3⟩

theorem workerRun_one_refreshTriggered (r : Remote) (uri : String) :
    (workerRun r uri 1).refreshTriggered = true ↔
      (isNotFound (r.GetCommit 0) ∧ r.RefreshVCS 0 = none) := by
  rw [workerRun_succ]
  simp only [workerRun, Worker.init, Bool.false_eq_true, if_false]
  by_cases hn : isNotFound (r.GetCommit 0)
  · cases hr : r.RefreshVCS 0 with
    | none =>
      rw [iteration_refresh_ok r uri _ hn rfl hr]
      simp [hn]
    | some e =>
      rw [iteration_refresh_failed r uri _ e hn rfl hr]
      simp
  · rw [iteration_break r uri _ hn]
    simp [hn]

theorem workerRun_one_done_of_not_triggered (r : Remote) (uri : String)
    (h : (workerRun r uri 1).refreshTriggered = false) : (workerRun r uri 1).done = true := by
  rw [workerRun_succ] at h ⊢
  simp only [workerRun, Worker.init, Bool.false_eq_true, if_false] at h ⊢
  by_cases hn : isNotFound (r.GetCommit 0)
  · cases hr : r.RefreshVCS 0 with
    | none =>
      rw [iteration_refresh_ok r uri _ hn rfl hr] at h
      simp at h
    | some e =>
      rw [iteration_refresh_failed r uri _ e hn rfl hr]
  · rw [iteration_break r uri _ hn]

/-! ## The poller: claims -/

/-- C1: if the first `k` reads are answered NotFound and read `k+1` is answered
with the commit `c`, the refresh succeeds and read `k+1` completes before the
deadline, then `getCommitWithRefreshAndRetry` returns `c`, and from then on
the worker has made exactly `k+1` reads, `k` sleeps and `min k 1` refresh
calls, in the order read, refresh, sleep, then read and sleep alternately,
ending with the read that found the commit. -/
theorem getCommitWithRefreshAndRetry_converges (ciFactor : Int) (r : Remote) (uri : String)
    (k : Nat) (c : Commit)
    (hNF : ∀ i, i < k → isNotFound (r.GetCommit i))
    (hFound : r.GetCommit k = (some c, none))
    (hRefresh : r.RefreshVCS 0 = none)
    (hDeadline : (∑ i ∈ Finset.range (k + 1), r.GetCommitDur i) + min k 1 * r.RefreshVCSDur 0
        + k * Second < deadline ciFactor) :
    getCommitWithRefreshAndRetry ciFactor r uri = PollOutcome.Converged (some c) ∧
    ∀ n, k + 1 ≤ n →
      (workerRun r uri n).done = true ∧
      (workerRun r uri n).reads = k + 1 ∧
      (workerRun r uri n).sleeps = k ∧
      (workerRun r uri n).refreshes = min k 1 ∧
      (workerRun r uri n).trace = notFoundTrace k ++ [Event.getCommit k] := by
  have hB : ¬ isNotFound (r.GetCommit k) := not_isNotFound_of_found _ (by rw [hFound])
  obtain ⟨hd, hcm, herr, hreads, hrefr, hsl, hcl, htr⟩ := workerRun_break r uri k hNF hRefresh hB
  constructor
  · unfold getCommitWithRefreshAndRetry
    rw [pollUntil_of_done _ r uri (k + 1) hd,
      selectOutcome_of_done_before r _ _ hd (by rw [hcl]; exact hDeadline), herr, hcm, hFound]
  · intro n hn
    rw [workerRun_of_done r uri (k + 1) n hd hn]
    exact ⟨hd, hreads, hsl, hrefr, htr⟩

/-- C2: if the first answer that is not NotFound is an error `e` whose code is
not NotFound (read `k+1`, the refresh succeeding and that read completing
before the deadline), the outcome is `Failed e`; the worker stops with that
read as its last action (no later read, refresh or sleep), and when `e`
answers the very first read there is no sleep and no refresh call at all. -/
theorem getCommitWithRefreshAndRetry_other_error (ciFactor : Int) (r : Remote) (uri : String)
    (k : Nat) (e : GoError)
    (hNF : ∀ i, i < k → isNotFound (r.GetCommit i))
    (hErr : (r.GetCommit k).2 = some e) (hCode : e.code ≠ codes_NotFound)
    (hRefresh : r.RefreshVCS 0 = none)
    (hDeadline : (∑ i ∈ Finset.range (k + 1), r.GetCommitDur i) + min k 1 * r.RefreshVCSDur 0
        + k * Second < deadline ciFactor) :
    getCommitWithRefreshAndRetry ciFactor r uri = PollOutcome.Failed e ∧
    (∀ n, k + 1 ≤ n →
      workerRun r uri n = workerRun r uri (k + 1) ∧
      (workerRun r uri n).reads = k + 1 ∧
      (workerRun r uri n).sleeps = k ∧
      (workerRun r uri n).refreshes = min k 1 ∧
      (workerRun r uri n).trace = notFoundTrace k ++ [Event.getCommit k]) ∧
    (k = 0 → ∀ n, (workerRun r uri n).sleeps = 0 ∧ (workerRun r uri n).refreshes = 0 ∧
      (workerRun r uri n).trace ⊆ [Event.getCommit 0]) := by
  have hB : ¬ isNotFound (r.GetCommit k) := not_isNotFound_of_code _ e hErr hCode
  obtain ⟨hd, hcm, herr, hreads, hrefr, hsl, hcl, htr⟩ := workerRun_break r uri k hNF hRefresh hB
  refine ⟨?_, ?_, ?_⟩
  · unfold getCommitWithRefreshAndRetry
    rw [pollUntil_of_done _ r uri (k + 1) hd,
      selectOutcome_of_done_before r _ _ hd (by rw [hcl]; exact hDeadline), herr, hErr]
  · intro n hn
    rw [workerRun_of_done r uri (k + 1) n hd hn]
    exact ⟨rfl, hreads, hsl, hrefr, htr⟩
  · intro hk n
    subst hk
    rcases Nat.eq_zero_or_pos n with h0 | hpos
    · subst h0; simp [workerRun, Worker.init]
    · rw [workerRun_of_done r uri (0 + 1) n hd (by omega), hsl, hrefr, htr]
      simp [notFoundTrace]

/-- C4: if every read is answered NotFound and the refresh succeeds, the worker
never leaves its loop, so for every deadline (three seconds, and the
`wait` of every `ciFactor`, in particular) the outcome is `TimedOut`; however
many passes the worker makes, it has called `RefreshVCS` exactly once, while
it has slept once per pass. -/
theorem getCommitWithRefreshAndRetry_always_notFound (r : Remote) (uri : String)
    (hNF : ∀ i, isNotFound (r.GetCommit i)) (hRefresh : r.RefreshVCS 0 = none) :
    (∀ n, (workerRun r uri n).done = false) ∧
    (∀ dl, pollUntil dl r uri = PollOutcome.TimedOut) ∧
    pollUntil (3 * Second) r uri = PollOutcome.TimedOut ∧
    (∀ ciFactor, getCommitWithRefreshAndRetry ciFactor r uri = PollOutcome.TimedOut) ∧
    (∀ n, 1 ≤ n → (workerRun r uri n).refreshes = 1 ∧ (workerRun r uri n).sleeps = n ∧
      (workerRun r uri n).reads = n) := by
  have hrun := fun n => workerRun_notFound r uri n (fun i _ => hNF i) hRefresh
  have hto : ∀ dl, pollUntil dl r uri = PollOutcome.TimedOut := fun dl =>
    selectOutcome_of_not_done r dl _ (hrun _).1
  refine ⟨fun n => (hrun n).1, hto, hto _, fun _ => hto _, ?_⟩
  intro n hn
  obtain ⟨_, _, hreads, hrefr, hsl, _, _⟩ := hrun n
  exact ⟨by rw [hrefr]; omega, hsl, hreads⟩

/-- C5: invariant of the poll loop, for every sequence of read and refresh
answers: at every step at most one `RefreshVCS` call has been made;
`refreshTriggered` is true exactly from the end of the first pass on, and only
when the first read was answered NotFound and the refresh call succeeded, and
it is never reset; and a step makes a refresh call only when the flag was
false and the read of that step was answered NotFound, the call following
that read directly. -/
theorem worker_refresh_invariant (r : Remote) (uri : String) :
    (∀ n, (workerRun r uri n).refreshes ≤ 1) ∧
    (∀ n, (workerRun r uri n).refreshTriggered = true ↔
      (0 < n ∧ isNotFound (r.GetCommit 0) ∧ r.RefreshVCS 0 = none)) ∧
    (∀ n m, n ≤ m → (workerRun r uri n).refreshTriggered = true →
      (workerRun r uri m).refreshTriggered = true) ∧
    (∀ n, (workerRun r uri (n + 1)).refreshes ≠ (workerRun r uri n).refreshes →
      (workerRun r uri n).refreshTriggered = false ∧
      isNotFound (r.GetCommit (workerRun r uri n).reads) ∧
      (workerRun r uri (n + 1)).refreshes = (workerRun r uri n).refreshes + 1 ∧
      ∃ rest, (workerRun r uri (n + 1)).trace =
        (workerRun r uri n).trace ++
          [Event.getCommit (workerRun r uri n).reads,
           Event.refreshVCS (workerRun r uri n).refreshes] ++ rest) := by
  refine ⟨fun n => (workerRun_refresh_inv r uri n).2.2, ?_,
    fun n m hnm h => workerRun_refreshTriggered_mono r uri n m hnm h, ?_⟩
  · intro n
    rcases Nat.eq_zero_or_pos n with h0 | hpos
    · subst h0; simp [workerRun, Worker.init]
    · rw [← workerRun_one_refreshTriggered r uri]
      constructor
      · intro h
        refine ⟨hpos, ?_⟩
        by_contra hc
        simp only [Bool.not_eq_true] at hc
        have hd := workerRun_one_done_of_not_triggered r uri hc
        rw [workerRun_of_done r uri 1 n hd hpos, hc] at h
        exact absurd h (by simp)
      · rintro ⟨_, h⟩
        exact workerRun_refreshTriggered_mono r uri 1 n hpos h
  · intro n hne
    rw [workerRun_succ] at hne ⊢
    cases hd : (workerRun r uri n).done
    · simp only [hd, Bool.false_eq_true, if_false] at hne ⊢
      by_cases hn : isNotFound (r.GetCommit (workerRun r uri n).reads)
      · cases ht : (workerRun r uri n).refreshTriggered
        · cases hr : r.RefreshVCS (workerRun r uri n).refreshes with
          | none =>
            rw [iteration_refresh_ok r uri _ hn ht hr]
            exact ⟨rfl, hn, rfl, [Event.sleep Second], by simp⟩
          | some e =>
            rw [iteration_refresh_failed r uri _ e hn ht hr]
            exact ⟨rfl, hn, rfl, [], by simp⟩
        · rw [iteration_retry r uri _ hn ht] at hne
          exact absurd rfl hne
      · rw [iteration_break r uri _ hn] at hne
        exact absurd rfl hne
    · simp only [hd, if_true] at hne
      exact absurd rfl hne

/-- C1 at the read sequence NotFound, NotFound, Found: the commit is returned
after three reads, one refresh and two sleeps. -/
theorem getCommitWithRefreshAndRetry_converges_witness :
    getCommitWithRefreshAndRetry 1
        (remoteOfList [(none, some notFoundErr), (none, some notFoundErr), (some ⟨"abc"⟩, none)])
        "repo" = PollOutcome.Converged (some ⟨"abc"⟩) ∧
    ∀ n, 2 + 1 ≤ n →
      (workerRun (remoteOfList
        [(none, some notFoundErr), (none, some notFoundErr), (some ⟨"abc"⟩, none)]) "repo" n).done
          = true ∧
      (workerRun (remoteOfList
        [(none, some notFoundErr), (none, some notFoundErr), (some ⟨"abc"⟩, none)]) "repo" n).reads
          = 2 + 1 ∧
      (workerRun (remoteOfList
        [(none, some notFoundErr), (none, some notFoundErr), (some ⟨"abc"⟩, none)]) "repo" n).sleeps
          = 2 ∧
      (workerRun (remoteOfList
        [(none, some notFoundErr), (none, some notFoundErr), (some ⟨"abc"⟩, none)]) "repo"
          n).refreshes = min 2 1 ∧
      (workerRun (remoteOfList
        [(none, some notFoundErr), (none, some notFoundErr), (some ⟨"abc"⟩, none)]) "repo" n).trace
          = notFoundTrace 2 ++ [Event.getCommit 2] :=
  getCommitWithRefreshAndRetry_converges 1
    (remoteOfList [(none, some notFoundErr), (none, some notFoundErr), (some ⟨"abc"⟩, none)])
    "repo" 2 ⟨"abc"⟩
    (by intro i hi; interval_cases i <;> decide)
    rfl rfl
    (by simp [remoteOfList, Second, deadline, wait, wrapInt64])

/-- C2 at the read sequence NotFound, PermissionDenied: the outcome is `Failed`
with that error and the worker stops after its second read. -/
theorem getCommitWithRefreshAndRetry_other_error_witness :
    getCommitWithRefreshAndRetry 1
        (remoteOfList [(none, some notFoundErr), (none, some permissionDenied)]) "repo"
      = PollOutcome.Failed permissionDenied :=
  (getCommitWithRefreshAndRetry_other_error 1
    (remoteOfList [(none, some notFoundErr), (none, some permissionDenied)]) "repo" 1
    permissionDenied
    (by intro i hi; interval_cases i; decide)
    rfl (by decide) rfl
    (by simp [remoteOfList, Second, deadline, wait, wrapInt64])).1

/-- C4 at the remote that answers NotFound for ever, with `ciFactor = 1`. -/
theorem getCommitWithRefreshAndRetry_always_notFound_witness :
    getCommitWithRefreshAndRetry 1 (remoteOfList []) "repo" = PollOutcome.TimedOut ∧
    (workerRun (remoteOfList []) "repo" 9).refreshes = 1 :=
  ⟨(getCommitWithRefreshAndRetry_always_notFound (remoteOfList []) "repo"
      (by intro i; simp [remoteOfList]; decide) rfl).2.2.2.1 1,
   ((getCommitWithRefreshAndRetry_always_notFound (remoteOfList []) "repo"
      (by intro i; simp [remoteOfList]; decide) rfl).2.2.2.2 9 (by decide)).1⟩

/-- C5 on `lateRemote`: the flag, set by the first pass, is still set after
the eleventh. -/
theorem worker_refresh_invariant_witness :
    (workerRun lateRemote "repo" 11).refreshTriggered = true :=
  (worker_refresh_invariant lateRemote "repo").2.2.1 1 11 (by decide) (by decide)

/-- C6, refuted on `lateRemote` with `ciFactor = 1`: the caller gets `TimedOut`
(the deadline is at 9 s), and the abandoned worker, still in its loop after
ten passes with its clock at 10 s, makes an eleventh read whose answer it
assigns to the captured variables: `commit` goes from nil to the commit and
`err` from the NotFound error to nil, after `TimedOut` was returned. -/
theorem abandoned_worker_writes_counterexample :
    getCommitWithRefreshAndRetry 1 lateRemote "repo" = PollOutcome.TimedOut ∧
    deadline 1 < (workerRun lateRemote "repo" 10).clock ∧
    (workerRun lateRemote "repo" 10).done = false ∧
    (workerRun lateRemote "repo" 10).commit = none ∧
    (workerRun lateRemote "repo" 10).err = some notFoundErr ∧
    (workerRun lateRemote "repo" 11).reads = (workerRun lateRemote "repo" 10).reads + 1 ∧
    (workerRun lateRemote "repo" 11).commit = some ⟨"abc"⟩ ∧
    (workerRun lateRemote "repo" 11).err = none := by
  decide

/-- C6 as amended: once the timeout branch has been taken the outcome stays
`TimedOut` whatever state the worker reaches later (its result is ignored),
but the worker is neither stopped nor guarded: as long as it has not left its
loop, each further pass makes one more read and assigns both captured
variables, `commit` with the commit of the answer, and `err` with the error
of the answer, or, when the answer is NotFound and no refresh was triggered
yet, with the result of the refresh call (nil, or the wrapped refresh error). -/
theorem timeout_stands_worker_continues (ciFactor : Int) (r : Remote) (uri : String)
    (h : getCommitWithRefreshAndRetry ciFactor r uri = PollOutcome.TimedOut) :
    (∀ n, passesBefore (deadline ciFactor) ≤ n →
      selectOutcome r (deadline ciFactor) (workerRun r uri n) = PollOutcome.TimedOut) ∧
    (∀ n, (workerRun r uri n).done = false →
      (workerRun r uri (n + 1)).reads = (workerRun r uri n).reads + 1 ∧
      (workerRun r uri (n + 1)).commit = (r.GetCommit (workerRun r uri n).reads).1 ∧
      (workerRun r uri (n + 1)).err =
        (if isNotFound (r.GetCommit (workerRun r uri n).reads) ∧
            (workerRun r uri n).refreshTriggered = false then
          (r.RefreshVCS (workerRun r uri n).refreshes).map (refreshError uri)
        else (r.GetCommit (workerRun r uri n).reads).2) ∧
      ((workerRun r uri n).refreshTriggered = true →
        (workerRun r uri (n + 1)).err = (r.GetCommit (workerRun r uri n).reads).2)) := by
  constructor
  · intro n hn
    rw [pollUntil_stable _ r uri n hn]
    exact h
  · intro n hd
    rw [workerRun_succ]
    simp only [hd, Bool.false_eq_true, if_false]
    by_cases hn : isNotFound (r.GetCommit (workerRun r uri n).reads)
    · cases ht : (workerRun r uri n).refreshTriggered
      · cases hr : r.RefreshVCS (workerRun r uri n).refreshes with
        | none =>
          rw [iteration_refresh_ok r uri _ hn ht hr]
          refine ⟨rfl, rfl, ?_, fun hc => absurd hc (by simp)⟩
          rw [if_pos ⟨hn, rfl⟩]; rfl
        | some e =>
          rw [iteration_refresh_failed r uri _ e hn ht hr]
          refine ⟨rfl, rfl, ?_, fun hc => absurd hc (by simp)⟩
          rw [if_pos ⟨hn, rfl⟩]; rfl
      · rw [iteration_retry r uri _ hn ht]
        refine ⟨rfl, rfl, ?_, fun _ => rfl⟩
        rw [if_neg (by simp)]
    · rw [iteration_break r uri _ hn]
      refine ⟨rfl, rfl, ?_, fun _ => rfl⟩
      rw [if_neg (fun hc => hn hc.1)]

/-- The amended C6 on `lateRemote`: the pass made after the timeout reads once
more and assigns `commit` and `err` with the answer of that read. -/
theorem timeout_stands_worker_continues_witness :
    (workerRun lateRemote "repo" (10 + 1)).reads = (workerRun lateRemote "repo" 10).reads + 1 ∧
    (workerRun lateRemote "repo" (10 + 1)).commit
      = (lateRemote.GetCommit (workerRun lateRemote "repo" 10).reads).1 ∧
    (workerRun lateRemote "repo" (10 + 1)).err
      = (lateRemote.GetCommit (workerRun lateRemote "repo" 10).reads).2 :=
  ⟨((timeout_stands_worker_continues 1 lateRemote "repo" (by decide)).2 10 (by decide)).1,
   ((timeout_stands_worker_continues 1 lateRemote "repo" (by decide)).2 10 (by decide)).2.1,
   ((timeout_stands_worker_continues 1 lateRemote "repo" (by decide)).2 10
      (by decide)).2.2.2 (by decide)⟩

/-! ## The fixture helpers: claims -/

/-- C7, refuted on `laggingServer`: creation and push succeed, the first read
of the pushed revision is answered NotFound and the second would be answered
with commit `abc`, yet `CreateAndPushRepoFiles` returns the NotFound error of
its only read, with an empty commit ID, having made no refresh call and no
second read; the poller on the same remote does converge to `abc`. -/
theorem CreateAndPushRepoFiles_counterexample :
    (∃ log, CreateAndPushRepoFiles laggingServer "repo" none =
      GoResult.returned { repo := none, commitID := "", err := some notFoundErr,
                          trace := [Event.getCommit 0], log := log }) ∧
    laggingServer.remote.GetCommit 1 = (some ⟨"abc"⟩, none) ∧
    getCommitWithRefreshAndRetry 1 laggingServer.remote "repo"
      = PollOutcome.Converged (some ⟨"abc"⟩) := by
  refine ⟨⟨(PushRepo quietHost "http://localhost/repo" "http://localhost/repo" none none false).1,
    ?_⟩, ?_, ?_⟩
  · decide
  · decide
  · decide

/-- C7 as amended: when repository creation, the authentication of the clone
URL and the push succeed, `CreateAndPushRepoFiles` makes exactly one read of
the pushed revision and nothing else on the remote ports: if the read finds a
commit `c` it returns the ID of `c` with a nil error, and if the read is
answered with an error (NotFound included) it returns that error. -/
theorem CreateAndPushRepoFiles_single_read (s : Server) (repoURI : String)
    (files : Option (List (String × String))) (repo : Repo) (url : String)
    (log : List Invocation)
    (hCreate : s.Create { URI := repoURI, VCS := "git", CloneURL := "", Mirror := false }
      = (some repo, none))
    (hAuth : s.AddSystemAuthToURL "internal:write" repo.HTTPCloneURL = (url, none))
    (hPush : PushRepo s.host url url none files false = (log, none)) :
    (∀ c, s.remote.GetCommit 0 = (some c, none) →
      CreateAndPushRepoFiles s repoURI files =
        GoResult.returned { repo := some repo, commitID := c.ID, err := none,
                            trace := [Event.getCommit 0], log := log }) ∧
    (∀ e, (s.remote.GetCommit 0).2 = some e →
      CreateAndPushRepoFiles s repoURI files =
        GoResult.returned { repo := none, commitID := "", err := some e,
                            trace := [Event.getCommit 0], log := log }) := by
  have hc : CreateRepo s repoURI false = (some repo, none) := by
    simp [CreateRepo, hCreate]
  constructor
  · intro c hg
    simp [CreateAndPushRepoFiles, hc, hAuth, hPush, hg]
  · intro e hg
    rcases hgc : s.remote.GetCommit 0 with ⟨a, b⟩
    rw [hgc] at hg
    simp only at hg
    subst hg
    simp [CreateAndPushRepoFiles, hc, hAuth, hPush, hgc]

/-- The amended C7 on `laggingServer`: the NotFound answer of the single read
is what the helper returns. -/
theorem CreateAndPushRepoFiles_single_read_witness :
    CreateAndPushRepoFiles laggingServer "repo" none =
      GoResult.returned
        { repo := none, commitID := "", err := some notFoundErr, trace := [Event.getCommit 0],
          log := (PushRepo quietHost "http://localhost/repo" "http://localhost/repo" none none
                    false).1 } :=
  (CreateAndPushRepoFiles_single_read laggingServer "repo" none
    { URI := "repo", HTTPCloneURL := "http://localhost/repo", DefaultBranch := "master" }
    "http://localhost/repo"
    (PushRepo quietHost "http://localhost/repo" "http://localhost/repo" none none false).1
    (by decide) (by decide) (by decide)).2 notFoundErr (by decide)

theorem prepGitSSHCommand_args (h : Host) (cmd : Cmd) (dir : String) (k : Key) :
    (prepGitSSHCommand h cmd dir k).1.Args = cmd.Args := by
  unfold prepGitSSHCommand
  simp only
  split
  · rfl
  · split
    · rfl
    · split
      · rfl
      · split <;> rfl

theorem mem_snoc_of (P : Invocation → Prop) (log : List Invocation) (x : Invocation)
    (hlog : ∀ inv ∈ log, P inv) (hx : P x) : ∀ inv ∈ log ++ [x], P inv := by
  intro inv hinv
  rcases List.mem_append.1 hinv with h1 | h1
  · exact hlog inv h1
  · rw [List.mem_singleton] at h1
    subst h1
    exact hx

theorem gitAdd_mode (dir path : String) : PushRepoMode (gitAdd dir path) :=
  Or.inr ⟨rfl, Or.inr (Or.inl rfl)⟩

theorem gitClone_mode (cloneURL tmpDir dir : String) :
    PushRepoMode (gitClone cloneURL tmpDir dir) :=
  Or.inr ⟨rfl, Or.inl rfl⟩

theorem gitCommit_mode (dir : String) : PushRepoMode (gitCommit dir) :=
  Or.inr ⟨rfl, Or.inr (Or.inr rfl)⟩

theorem gitPushRef_mode (pushURL dir : String) (env : List String) (ref : String) :
    PushRepoMode (gitPushRef pushURL dir env ref) :=
  Or.inl ⟨rfl, rfl⟩

theorem addFiles_log (h : Host) (dir : String) (fs : List (String × String)) :
    ∀ log : List Invocation, (∀ inv ∈ log, PushRepoMode inv) →
      ∀ inv ∈ (addFiles h dir fs log).1, PushRepoMode inv := by
  induction fs with
  | nil => intro log hlog; simpa [addFiles] using hlog
  | cons f rest ih =>
    obtain ⟨path, data⟩ := f
    intro log hlog
    have hadd := mem_snoc_of PushRepoMode log _ hlog (gitAdd_mode dir path)
    simp only [addFiles]
    split
    · exact hlog
    · split
      · exact hlog
      · split
        · exact hadd
        · exact ih _ hadd

theorem pushAndDeleteBranch_log (h : Host) (pushURL dir : String) (env : List String)
    (log : List Invocation) (hlog : ∀ inv ∈ log, PushRepoMode inv) :
    ∀ inv ∈ (pushAndDeleteBranch h pushURL dir env log).1, PushRepoMode inv := by
  have h1 := mem_snoc_of PushRepoMode log _ hlog
    (gitPushRef_mode pushURL dir env "master:tmpbranch")
  have h2 := mem_snoc_of PushRepoMode _ _ h1 (gitPushRef_mode pushURL dir env ":tmpbranch")
  simp only [pushAndDeleteBranch]
  split
  · exact h1
  · split
    · exact h2
    · exact h2

theorem pushCommits_log (h : Host) (pushURL dir : String) (key : Option Key)
    (deleteBranch : Bool) (log : List Invocation) (hlog : ∀ inv ∈ log, PushRepoMode inv) :
    ∀ inv ∈ (pushCommits h pushURL dir key deleteBranch log).1, PushRepoMode inv := by
  have hpush : ∀ cmd : Cmd, cmd.Args.take 2 = ["git", "push"] →
      ∀ inv ∈ log ++ [Invocation.mk cmd (RunMode.CmdCombinedOutputWithTimeout pushTimeout)],
      PushRepoMode inv :=
    fun cmd hcmd => mem_snoc_of PushRepoMode log _ hlog (Or.inl ⟨hcmd, rfl⟩)
  have hargs : ∀ cmd : Cmd, ∀ e : Option GoError,
      (match key with
        | some k => prepGitSSHCommand h (prepGitCommand
            { Args := ["git", "push", if pushURL = "" then "origin" else pushURL, "master"],
              Env := ["GIT_ASKPASS=true"], Dir := dir, Stdin := none }) dir k
        | none => (prepGitCommand
            { Args := ["git", "push", if pushURL = "" then "origin" else pushURL, "master"],
              Env := ["GIT_ASKPASS=true"], Dir := dir, Stdin := none }, none)) = (cmd, e) →
      cmd.Args.take 2 = ["git", "push"] := by
    intro cmd e heq
    cases key with
    | none =>
      simp only [Prod.mk.injEq] at heq
      rw [← heq.1]; rfl
    | some k =>
      simp only at heq
      have := prepGitSSHCommand_args h (prepGitCommand
            { Args := ["git", "push", if pushURL = "" then "origin" else pushURL, "master"],
              Env := ["GIT_ASKPASS=true"], Dir := dir, Stdin := none }) dir k
      rw [heq] at this
      simp only at this
      rw [this]; rfl
  simp only [pushCommits]
  split
  · exact hlog
  · rename_i cmd heq
    have hcmd := hargs cmd none heq
    split
    · exact hpush cmd hcmd
    · split
      · exact pushAndDeleteBranch_log h _ dir _ _ (hpush cmd hcmd)
      · exact hpush cmd hcmd

theorem PushRepo_log (h : Host) (pushURL cloneURL : String) (key : Option Key)
    (files : Option (List (String × String))) (deleteBranch : Bool) :
    ∀ inv ∈ (PushRepo h pushURL cloneURL key files deleteBranch).1, PushRepoMode inv := by
  have hclone : ∀ tmpDir dir : String, ∀ inv ∈ [gitClone cloneURL tmpDir dir],
      PushRepoMode inv := by
    intro tmpDir dir inv hinv
    rw [List.mem_singleton] at hinv
    subst hinv
    exact gitClone_mode cloneURL tmpDir dir
  simp only [PushRepo]
  split
  · intro inv hinv; simp at hinv
  · split
    · intro inv hinv; simp at hinv
    · rename_i tmpDir _
      split
      · exact hclone tmpDir _
      · split
        · rename_i log e heq
          have := addFiles_log h (h.Join tmpDir "testrepo") (filesOrDefault files) _
            (hclone tmpDir (h.Join tmpDir "testrepo"))
          rw [heq] at this
          exact this
        · rename_i log heq
          have hlog := addFiles_log h (h.Join tmpDir "testrepo") (filesOrDefault files) _
            (hclone tmpDir (h.Join tmpDir "testrepo"))
          rw [heq] at hlog
          have hcommit := mem_snoc_of PushRepoMode log _ hlog
            (gitCommit_mode (h.Join tmpDir "testrepo"))
          split
          · exact hcommit
          · exact pushCommits_log h _ _ _ _ _ hcommit

theorem CloneRepo_log (h : Host) (cloneURL dir : String) (key : Option Key)
    (args : List String) (emptyFetch : Bool) :
    ∀ inv ∈ (CloneRepo h cloneURL dir key args emptyFetch).1, CloneRepoMode inv := by
  have hargs : ∀ (d : String) (cmd : Cmd) (e : Option GoError),
      (match key with
        | some k => prepGitSSHCommand h (prepGitCommand
            { Args := ["git", "clone"] ++ args ++ [cloneURL, "testrepo"],
              Env := ["GIT_ASKPASS=true"], Dir := d, Stdin := some "\n" }) d k
        | none => (prepGitCommand
            { Args := ["git", "clone"] ++ args ++ [cloneURL, "testrepo"],
              Env := ["GIT_ASKPASS=true"], Dir := d, Stdin := some "\n" }, none)) = (cmd, e) →
      cmd.Args.take 2 = ["git", "clone"] := by
    intro d cmd e heq
    cases key with
    | none =>
      simp only [Prod.mk.injEq] at heq
      rw [← heq.1]; rfl
    | some k =>
      simp only at heq
      have := prepGitSSHCommand_args h (prepGitCommand
            { Args := ["git", "clone"] ++ args ++ [cloneURL, "testrepo"],
              Env := ["GIT_ASKPASS=true"], Dir := d, Stdin := some "\n" }) d k
      rw [heq] at this
      simp only at this
      rw [this]; rfl
  have hone : ∀ cmd : Cmd, cmd.Args.take 2 = ["git", "clone"] →
      CloneRepoMode { cmd := cmd, mode := RunMode.CmdCombinedOutputWithTimeout pushTimeout } :=
    fun cmd hcmd => ⟨rfl, Or.inl hcmd⟩
  have hfetch : ∀ cmd : Cmd, cmd.Args = ["git", "fetch"] →
      CloneRepoMode { cmd := cmd, mode := RunMode.CmdCombinedOutputWithTimeout pushTimeout } :=
    fun cmd hcmd => ⟨rfl, Or.inr (by simp [Invocation.verb, hcmd])⟩
  simp only [CloneRepo]
  split
  · intro inv hinv; simp at hinv
  · rename_i d _
    split
    · intro inv hinv; simp at hinv
    · rename_i cmd heq
      have hcmd := hargs d cmd none heq
      split
      · intro inv hinv
        rw [List.mem_singleton] at hinv
        subst hinv
        exact hone cmd hcmd
      · split
        · split <;>
          · intro inv hinv
            simp only [List.mem_cons, List.mem_singleton, List.not_mem_nil, or_false] at hinv
            rcases hinv with h1 | h1
            · subst h1; exact hone cmd hcmd
            · subst h1; exact hfetch _ rfl
        · intro inv hinv
          rw [List.mem_singleton] at hinv
          subst hinv
          exact hone cmd hcmd

/-- C8, refuted on `quietHost` for the default file set: `PushRepo` issues
git clone, git add, git commit and git push in this order, and only the push
is run with a timeout; the three commands before it are run with plain
`CombinedOutput`, which waits without any time limit. -/
theorem PushRepo_timeout_counterexample :
    (PushRepo quietHost "" "http://localhost/r" none none false).2 = none ∧
    (PushRepo quietHost "" "http://localhost/r" none none false).1.map
        (fun inv => (inv.verb, inv.mode))
      = [(["git", "clone"], RunMode.CombinedOutput), (["git", "add"], RunMode.CombinedOutput),
         (["git", "commit"], RunMode.CombinedOutput),
         (["git", "push"], RunMode.CmdCombinedOutputWithTimeout pushTimeout)] := by
  decide

/-- C8 as amended: for every host and every input, each command issued by
`PushRepo` is either a git push run with the five-second timeout, or one of
git clone, git add and git commit run with plain `CombinedOutput` (no
timeout); each command issued by `CloneRepo` is git clone or git fetch and is
run with the five-second timeout. -/
theorem fixture_command_timeouts :
    (∀ (h : Host) (pushURL cloneURL : String) (key : Option Key)
        (files : Option (List (String × String))) (deleteBranch : Bool),
      ∀ inv ∈ (PushRepo h pushURL cloneURL key files deleteBranch).1,
        (inv.verb = ["git", "push"] ∧
          inv.mode = RunMode.CmdCombinedOutputWithTimeout (Second * 5)) ∨
        (inv.mode = RunMode.CombinedOutput ∧
          (inv.verb = ["git", "clone"] ∨ inv.verb = ["git", "add"] ∨
            inv.verb = ["git", "commit"]))) ∧
    (∀ (h : Host) (cloneURL dir : String) (key : Option Key) (args : List String)
        (emptyFetch : Bool),
      ∀ inv ∈ (CloneRepo h cloneURL dir key args emptyFetch).1,
        inv.mode = RunMode.CmdCombinedOutputWithTimeout (Second * 5) ∧
          (inv.verb = ["git", "clone"] ∨ inv.verb = ["git", "fetch"])) :=
  ⟨fun h pushURL cloneURL key files deleteBranch =>
      PushRepo_log h pushURL cloneURL key files deleteBranch,
   fun h cloneURL dir key args emptyFetch => CloneRepo_log h cloneURL dir key args emptyFetch⟩

/-- The amended C8 on `quietHost`: the commit of the default file set is run
with plain `CombinedOutput`. -/
theorem fixture_command_timeouts_witness :
    ((gitCommit "/tmp/fixture/testrepo").verb = ["git", "push"] ∧
      (gitCommit "/tmp/fixture/testrepo").mode
        = RunMode.CmdCombinedOutputWithTimeout (Second * 5)) ∨
    ((gitCommit "/tmp/fixture/testrepo").mode = RunMode.CombinedOutput ∧
      ((gitCommit "/tmp/fixture/testrepo").verb = ["git", "clone"] ∨
        (gitCommit "/tmp/fixture/testrepo").verb = ["git", "add"] ∨
        (gitCommit "/tmp/fixture/testrepo").verb = ["git", "commit"])) :=
  fixture_command_timeouts.1 quietHost "" "http://localhost/r" none none false
    (gitCommit "/tmp/fixture/testrepo") (by decide)

/-! ## The document parser test helper: claims -/

theorem walk_of_true (fn : Node → meta → GoResult (Bool × meta)) (n : Node) (m m1 : meta)
    (h : fn n m = GoResult.returned (true, m1)) :
    walk fn n m = walkChildren fn n.children m1 := by
  cases n with
  | mk t a d cs => rw [walk, h]; rfl

theorem walk_of_false (fn : Node → meta → GoResult (Bool × meta)) (n : Node) (m m1 : meta)
    (h : fn n m = GoResult.returned (false, m1)) :
    walk fn n m = GoResult.returned m1 := by
  cases n with
  | mk t a d cs => rw [walk, h]

theorem visit_skipped (n : Node) (m : meta) (h : n.skipped) :
    visit n m = GoResult.returned (false, m) := by
  obtain ⟨h1, h2, h3, h4⟩ := h
  unfold visit
  rw [if_neg h1]
  split
  · exact absurd (by assumption) h2
  · exact absurd (by assumption) h3
  · exact absurd (by assumption) h4
  · rfl

theorem walk_skipped (n : Node) (m : meta) (h : n.skipped) :
    walk visit n m = GoResult.returned m := by
  exact walk_of_false visit n m m (visit_skipped n m h)

theorem walkChildren_skipped (l : List Node) (m : meta) (h : ∀ n ∈ l, n.skipped) :
    walkChildren visit l m = GoResult.returned m := by
  induction l with
  | nil => rw [walkChildren]
  | cons c cs ih =>
    rw [walkChildren, walk_skipped c m (h c (List.mem_cons_self _ _))]
    exact ih (fun n hn => h n (List.mem_cons_of_mem _ hn))

theorem walkChildren_cons_returned (fn : Node → meta → GoResult (Bool × meta)) (c : Node)
    (cs : List Node) (m m1 : meta) (h : walk fn c m = GoResult.returned m1) :
    walkChildren fn (c :: cs) m = walkChildren fn cs m1 := by
  rw [walkChildren, h]

theorem walk_titled (n : Node) (m : meta) (h : n.titled) :
    ∃ m1, walk visit n m = GoResult.returned m1 := by
  obtain ⟨h1, h2, h3⟩ := h
  cases hc : n.children with
  | nil => exact absurd hc h3
  | cons c cs =>
    refine ⟨{ m with Title := c.Data }, walk_of_false visit n m _ ?_⟩
    unfold visit
    rw [if_neg h1, h2]
    simp only [hc]

theorem walkChildren_titled (l : List Node) (m : meta)
    (h : ∀ n ∈ l, n.skipped ∨ n.titled) : ∃ m1, walkChildren visit l m = GoResult.returned m1 := by
  induction l generalizing m with
  | nil => exact ⟨m, by rw [walkChildren]⟩
  | cons c cs ih =>
    have hcs : ∀ n ∈ cs, n.skipped ∨ n.titled := fun n hn => h n (List.mem_cons_of_mem _ hn)
    rcases h c (List.mem_cons_self _ _) with hs | ht
    · obtain ⟨m1, hm1⟩ := ih m hcs
      exact ⟨m1, by rw [walkChildren_cons_returned visit c cs m m (walk_skipped c m hs), hm1]⟩
    · obtain ⟨m0, hm0⟩ := walk_titled c m ht
      obtain ⟨m1, hm1⟩ := ih m0 hcs
      exact ⟨m1, by rw [walkChildren_cons_returned visit c cs m m0 hm0, hm1]⟩

theorem walkChildren_append_returned (l1 l2 : List Node) (m m1 : meta)
    (h : walkChildren visit l1 m = GoResult.returned m1) :
    walkChildren visit (l1 ++ l2) m = walkChildren visit l2 m1 := by
  induction l1 generalizing m with
  | nil =>
    rw [walkChildren] at h
    cases h
    rfl
  | cons c cs ih =>
    rw [walkChildren] at h
    cases hc : walk visit c m with
    | panic msg => rw [hc] at h; cases h
    | returned m0 =>
      rw [hc] at h
      simp only [List.cons_append]
      rw [walkChildren_cons_returned visit c _ m m0 hc]
      exact ih m0 h

theorem walkChildren_around (pre post : List Node) (c : Node) (m1 : meta)
    (hpre : ∀ n ∈ pre, n.skipped ∨ n.titled) (hpost : ∀ n ∈ post, n.skipped)
    (hc : ∀ m, walk visit c m = GoResult.returned m1) (m : meta) :
    walkChildren visit (pre ++ [c] ++ post) m = GoResult.returned m1 := by
  obtain ⟨m0, hm0⟩ := walkChildren_titled pre m hpre
  rw [List.append_assoc, walkChildren_append_returned pre _ m m0 hm0]
  simp only [List.singleton_append]
  rw [walkChildren_cons_returned visit c post m0 m1 (hc m0)]
  exact walkChildren_skipped post m1 hpost

theorem walk_traversed (n : Node) (m : meta)
    (h : n.nodeType = NodeType.DocumentNode ∨ n.DataAtom = Atom.Html ∨ n.DataAtom = Atom.Head) :
    walk visit n m = walkChildren visit n.children m := by
  have hv : visit n m = GoResult.returned (true, m) := by
    unfold visit
    by_cases hd : n.nodeType = NodeType.DocumentNode
    · rw [if_pos hd]
    · rw [if_neg hd]
      rcases h with h | h | h
      · exact absurd h hd
      · rw [h]
      · rw [h]
  exact walk_of_true visit n m m hv

theorem walk_document (a : Atom) (d : String) (cs : List Node) (m : meta) :
    walk visit (Node.mk NodeType.DocumentNode a d cs) m = walkChildren visit cs m :=
  walk_traversed (Node.mk NodeType.DocumentNode a d cs) m (Or.inl rfl)

theorem walk_html (d : String) (cs : List Node) (m : meta) :
    walk visit (element Atom.Html d cs) m = walkChildren visit cs m :=
  walk_traversed (element Atom.Html d cs) m (Or.inr (Or.inl rfl))

theorem walk_head (d : String) (cs : List Node) (m : meta) :
    walk visit (element Atom.Head d cs) m = walkChildren visit cs m :=
  walk_traversed (element Atom.Head d cs) m (Or.inr (Or.inr rfl))

theorem walk_title (td : String) (first : Node) (rest : List Node) (m : meta) :
    walk visit (element Atom.Title td (first :: rest)) m
      = GoResult.returned { m with Title := first.Data } := by
  exact walk_of_false visit _ m _ rfl

/-- C9, refuted on the tree of
`<html><head><title>a</title><title>b</title></head><body></body></html>`:
the head holds a title element with text `a`, but the callback assigns
`m.Title` at every title element it reaches, so the later one wins and
`parseMeta` returns `Title = "b"`, not `Title = "a"`. -/
theorem parseMeta_two_titles_counterexample :
    parseMeta (some docTwoTitles, none) = GoResult.returned (some { Title := "b" }, none) ∧
    parseMeta (some docTwoTitles, none) ≠ GoResult.returned (some { Title := "a" }, none) := by
  decide

/-- C9 as amended: `parseMeta` extracts the text of the last title element. For
every tree whose root is a document node holding an html element that holds a
head element, the nodes beside them being ones the walk passes over: if the
last title element of the head has a first child carrying the text `s`, the
title elements before it each having a child, `parseMeta` returns a nil error
and `Title = s`; if the head holds no title element, it returns a nil error
and `Title = ""`. -/
theorem parseMeta_title :
    (∀ (rootAtom : Atom) (rootData hd hdd td s : String) (t : NodeType) (a : Atom)
        (pre post hpre hpost before after cs rest : List Node),
      (∀ n ∈ pre, n.skipped) → (∀ n ∈ post, n.skipped) →
      (∀ n ∈ hpre, n.skipped) → (∀ n ∈ hpost, n.skipped) →
      (∀ n ∈ before, n.skipped ∨ n.titled) → (∀ n ∈ after, n.skipped) →
      parseMeta
        (some (Node.mk NodeType.DocumentNode rootAtom rootData
          (pre ++ [element Atom.Html hd
            (hpre ++ [element Atom.Head hdd
              (before ++ [element Atom.Title td (Node.mk t a s cs :: rest)] ++ after)] ++
             hpost)] ++ post)), none)
        = GoResult.returned (some { Title := s }, none)) ∧
    (∀ (rootAtom : Atom) (rootData hd hdd : String)
        (pre post hpre hpost inHead : List Node),
      (∀ n ∈ pre, n.skipped) → (∀ n ∈ post, n.skipped) →
      (∀ n ∈ hpre, n.skipped) → (∀ n ∈ hpost, n.skipped) →
      (∀ n ∈ inHead, n.skipped) →
      parseMeta
        (some (Node.mk NodeType.DocumentNode rootAtom rootData
          (pre ++ [element Atom.Html hd
            (hpre ++ [element Atom.Head hdd inHead] ++ hpost)] ++ post)), none)
        = GoResult.returned (some { Title := "" }, none)) := by
  constructor
  · intro rootAtom rootData hd hdd td s t a pre post hpre hpost before after cs rest
      h1 h2 h3 h4 h5 h6
    have htitle : ∀ m, walk visit (element Atom.Title td (Node.mk t a s cs :: rest)) m
        = GoResult.returned { Title := s } :=
      fun m => walk_title td (Node.mk t a s cs) rest m
    have hhead : ∀ m, walk visit (element Atom.Head hdd
        (before ++ [element Atom.Title td (Node.mk t a s cs :: rest)] ++ after)) m
        = GoResult.returned { Title := s } := by
      intro m
      rw [walk_head]
      exact walkChildren_around before after _ _ h5 h6 htitle m
    have hhtml : ∀ m, walk visit (element Atom.Html hd
        (hpre ++ [element Atom.Head hdd
          (before ++ [element Atom.Title td (Node.mk t a s cs :: rest)] ++ after)] ++ hpost)) m
        = GoResult.returned { Title := s } := by
      intro m
      rw [walk_html]
      exact walkChildren_around hpre hpost _ _ (fun n hn => Or.inl (h3 n hn)) h4 hhead m
    simp only [parseMeta]
    rw [walk_document,
      walkChildren_around pre post _ _ (fun n hn => Or.inl (h1 n hn)) h2 hhtml]
  · intro rootAtom rootData hd hdd pre post hpre hpost inHead h1 h2 h3 h4 h5
    have hhead : walk visit (element Atom.Head hdd inHead) { Title := "" }
        = GoResult.returned { Title := "" } := by
      rw [walk_head]
      exact walkChildren_skipped inHead _ h5
    have hhtml : walk visit (element Atom.Html hd
        (hpre ++ [element Atom.Head hdd inHead] ++ hpost))
        { Title := "" } = GoResult.returned { Title := "" } := by
      rw [walk_html, List.append_assoc,
        walkChildren_append_returned hpre _ _ _ (walkChildren_skipped hpre _ h3)]
      simp only [List.singleton_append]
      rw [walkChildren_cons_returned visit _ hpost _ _ hhead]
      exact walkChildren_skipped hpost _ h4
    simp only [parseMeta]
    rw [walk_document, List.append_assoc,
      walkChildren_append_returned pre _ _ _ (walkChildren_skipped pre _ h1)]
    simp only [List.singleton_append]
    rw [walkChildren_cons_returned visit _ post _ _ hhtml, walkChildren_skipped post _ h2]

/-- The amended C9 on the two documents of `TestParseMeta` and on the document
with two titles: `mytitle` is found in the first, the empty title is returned
for the second, and the last title `b` for the third. -/
theorem parseMeta_title_witness :
    parseMeta (some docWithTitle, none) = GoResult.returned (some { Title := "mytitle" }, none) ∧
    parseMeta (some docWithoutTitle, none) = GoResult.returned (some { Title := "" }, none) ∧
    parseMeta (some docTwoTitles, none) = GoResult.returned (some { Title := "b" }, none) :=
  ⟨parseMeta_title.1 Atom.zero "" "html" "head" "title" "mytitle" NodeType.TextNode Atom.zero
      [] [] [] [element Atom.Body "body" []] [] [] [] []
      (by simp) (by simp) (by simp) (by simp [element, Node.skipped, Node.nodeType, Node.DataAtom])
      (by simp) (by simp),
   parseMeta_title.2 Atom.zero "" "html" "head"
      [] [] [] [element Atom.Body "body" []] []
      (by simp) (by simp) (by simp) (by simp [element, Node.skipped, Node.nodeType, Node.DataAtom])
      (by simp),
   parseMeta_title.1 Atom.zero "" "html" "head" "title" "b" NodeType.TextNode Atom.zero
      [] [] [] [element Atom.Body "body" []] [element Atom.Title "title" [textNode "a"]] [] [] []
      (by simp) (by simp) (by simp) (by simp [element, Node.skipped, Node.nodeType, Node.DataAtom])
      (by simp [element, Node.titled, Node.nodeType, Node.DataAtom, Node.children])
      (by simp)⟩

/-- C10 at the tree of `<html><head><title></title></head></html>`: the title
element has no child, the read `n.FirstChild.Data` dereferences nil and
`parseMeta` panics instead of returning a meta or an error. -/
theorem parseMeta_empty_title_panics :
    parseMeta (some docEmptyTitle, none) = GoResult.panic nilDereference := by
  decide

end Sourcegraph
